import Mathlib

/-!
Verification of the MACC builder core (MACCApp.jsx) against its
natural-language specification.  All machine numbers are embedded as
rationals; blank cells are `Option` values; JS `findIndex` / `Map` /
in-place loops are embedded as structurally recursive list functions.
-/

namespace MACC

/-! ## Numeric primitives (MACCApp.jsx lines 104-179, 469-474) -/

/-- Linear fill values for an interior gap of `buf` blanks between the
filled entries `last` and `v` (the loop body at MACCApp.jsx:154-155:
`dv = (s[i] - s[lastIdx])/(i - lastIdx)`, `s[k] = s[lastIdx] + dv*(k - lastIdx)`). -/
def fillVals (last v : ℚ) (buf : Nat) : List (Option ℚ) :=
  (List.range buf).map (fun k => some (last + ((v - last) / ((buf : ℚ) + 1)) * ((k : ℚ) + 1)))

/-- State of the interpolation loop after the most recent filled value
`last`, with `buf` pending blanks since then (MACCApp.jsx:148-159). -/
def afterFill (last : ℚ) (buf : Nat) : List (Option ℚ) → List (Option ℚ)
  | [] => List.replicate buf none
  | none :: rest => afterFill last (buf + 1) rest
  | some v :: rest => fillVals last v buf ++ some v :: afterFill v 0 rest

/-- `interpolateSeries` (MACCApp.jsx:148-159): fills interior runs of
blank entries by linear interpolation between the nearest filled
neighbours, leaving leading and trailing blanks untouched. -/
def interpolateSeries : List (Option ℚ) → List (Option ℚ)
  | [] => []
  | none :: rest => none :: interpolateSeries rest
  | some v :: rest => some v :: afterFill v 0 rest

/-- `npv` (MACCApp.jsx:162-165): sum of `amount_i / (1+rate)^max(0, years_i - baseYear)`. -/
def npv (rate : ℚ) (amounts : List ℚ) (years : List Int) (baseYear : Int) : ℚ :=
  (amounts.enum.map (fun p => p.2 / (1 + rate) ^ (years.getD p.1 0 - baseYear).toNat)).sum

/-- Bisection loop of `irr` (MACCApp.jsx:172-178) with explicit fuel;
fuel 0 returns the final midpoint. -/
def bisect (f : ℚ → ℚ) : Nat → ℚ → ℚ → ℚ → ℚ → ℚ
  | 0, lo, hi, _, _ => (lo + hi) / 2
  | it + 1, lo, hi, fLo, fHi =>
    let mid := (lo + hi) / 2
    let fMid := f mid
    if |fMid| < 1 / 10 ^ 6 then mid
    else if fLo * fMid < 0 then bisect f it lo mid fLo fMid
    else bisect f it mid hi fMid fHi

/-- `irr` (MACCApp.jsx:166-179): evaluate NPV at the bracket ends
`-0.9` and `3.0`; if they do not bracket a root return `none`, else
bisect for at most 100 iterations. -/
def irr (amounts : List ℚ) (years : List Int) (baseYear : Int) : Option ℚ :=
  let f := fun r => npv r amounts years baseYear
  let fLo := f (-9 / 10)
  let fHi := f 3
  if fLo * fHi > 0 then none
  else some (bisect f 100 (-9 / 10) 3 fLo fHi)

/-- `annuityFactor` (MACCApp.jsx:469-474) with an integral tenure. -/
def annuityFactor (r : ℚ) (n : Nat) : ℚ :=
  if n = 0 then 0
  else if |r| < 1 / 10 ^ 9 then 1 / (n : ℚ)
  else (r * (1 + r) ^ n) / ((1 + r) ^ n - 1)

/-! ## Cost normalization (MACCApp.jsx lines 2025-2036) -/

/-- Saved measure details relevant to cost normalization. -/
structure MeasureDetails where
  saved_cost_includes_carbon_price : Bool
  carbon_price_at_save : ℚ
deriving DecidableEq

/-- Flattened measure record consumed by ranking and the curve builder. -/
structure Measure where
  cost_per_tco2 : ℚ
  abatement_tco2 : ℚ
  details : Option MeasureDetails
deriving DecidableEq

/-- Effective cost of a measure at the current carbon price
(MACCApp.jsx:2027-2031). -/
def effectiveCost (m : Measure) (cpNow : ℚ) : ℚ :=
  let savedIncludesCP := (m.details.map (fun d => d.saved_cost_includes_carbon_price)).getD false
  let cpAtSave := (m.details.map (fun d => d.carbon_price_at_save)).getD 0
  if savedIncludesCP then m.cost_per_tco2 - (cpNow - cpAtSave)
  else m.cost_per_tco2 - cpNow

/-! ## Representative-year policy (MACCApp.jsx lines 606-607) -/

/-- Index of the first entry with `direct_t > 0`, as computed by
`perYear.findIndex(y => y.direct_t > 0)`. -/
def findPosIdx : List ℚ → Option Nat
  | [] => none
  | d :: rest => if 0 < d then some 0 else (findPosIdx rest).map (fun i => i + 1)

/-- Representative-year index (MACCApp.jsx:606-607): first index with
positive `direct_t`; else the index of year 2035 when present in the
year list, else the middle index. -/
def repIdx (years : List Int) (direct : List ℚ) : Nat :=
  match findPosIdx direct with
  | some i => i
  | none => if 2035 ∈ years then years.indexOf 2035 else years.length / 2

/-! ## Catalog resolver (MACCApp.jsx lines 1976-2002) -/

/-- JS `toLowerCase`, embedded as a character-wise lowercase map. -/
def lowerStr (s : String) : String := ⟨s.data.map Char.toLower⟩

/-- JS `Map.set`: overwrite an existing key in place, else append. -/
def insertMap {α : Type} (m : List (String × α)) (k : String) (v : α) : List (String × α) :=
  if m.any (fun p => p.1 = k) then m.map (fun p => if p.1 = k then (k, v) else p)
  else m ++ [(k, v)]

/-- One `forEach` pass of `mergedBy`: insert each row under its
lower-cased key, skipping rows whose key is empty (falsy). -/
def insertRows {α : Type} (key : α → String) : List (String × α) → List α → List (String × α)
  | m, [] => m
  | m, x :: rest =>
    insertRows key (if key x = "" then m else insertMap m (lowerStr (key x)) x) rest

/-- `mergedBy` (MACCApp.jsx:1976-1981): seed a key-to-row map from the
sample rows, overwrite with custom rows sharing the same lower-cased
key, and return the map values in insertion order. -/
def mergedBy {α : Type} (key : α → String) (arrA arrB : List α) : List α :=
  (insertRows key (insertRows key [] arrA) arrB).map (fun p => p.2)

/-- First value stored under key `k`. -/
def lookupKey {α : Type} (m : List (String × α)) (k : String) : Option α :=
  (m.find? (fun p => p.1 = k)).map (fun p => p.2)

/-- Concrete catalog row shape used for the merge examples. -/
structure CatRow where
  name : String
  price : ℚ
deriving DecidableEq

/-! ## Curve builder (MACCApp.jsx lines 2051-2065) -/

inductive CurveMode where
  | capacity : CurveMode
  | intensity : CurveMode

/-- A measure as seen by the curve builder, after ranking. -/
structure RankedMeasure where
  abatement_tco2 : ℚ
  effective_cost : ℚ

/-- Emitted MACC segment. -/
structure Segment where
  x1_plot : ℚ
  x2_plot : ℚ
  cost : ℚ
  abatement : ℚ

/-- Plot-coordinate conversion (MACCApp.jsx:2059-2060): identity in
capacity mode, percent of baseline emissions in intensity mode. -/
def plotX (mode : CurveMode) (denom : ℚ) (x : ℚ) : ℚ :=
  match mode with
  | .capacity => x
  | .intensity => if denom > 0 then (x / denom) * 100 else 0

/-- Segment walk (MACCApp.jsx:2051-2062): skip measures with
non-positive abatement, otherwise emit `[cum, cum + abatement]`. -/
def buildSegments (mode : CurveMode) (denom : ℚ) : List RankedMeasure → ℚ → List Segment
  | [], _ => []
  | m :: rest, cum =>
    if m.abatement_tco2 ≤ 0 then buildSegments mode denom rest cum
    else
      let x2cap := cum + max 0 m.abatement_tco2
      { x1_plot := plotX mode denom cum, x2_plot := plotX mode denom x2cap,
        cost := m.effective_cost, abatement := m.abatement_tco2 }
        :: buildSegments mode denom rest x2cap

/-! ## Quadratic least-squares fit (MACCApp.jsx lines 104-145) -/

/-- Determinant of a 3 by 3 matrix given row-wise (MACCApp.jsx:117-120). -/
def det3 (a11 a12 a13 a21 a22 a23 a31 a32 a33 : ℚ) : ℚ :=
  a11 * (a22 * a33 - a23 * a32) - a12 * (a21 * a33 - a23 * a31) + a13 * (a21 * a32 - a22 * a31)

/-- Result record of `quadraticFit`. -/
structure QuadFit where
  a : ℚ
  b : ℚ
  c : ℚ
  r2 : Option ℚ
deriving DecidableEq

/-- Power sum `Σ x^k` over the x inputs. -/
def powSum (xs : List ℚ) (k : Nat) : ℚ := (xs.map (fun x => x ^ k)).sum

/-- Determinant of the normal-equations system of `quadraticFit`. -/
def quadDet (xs : List ℚ) : ℚ :=
  det3 (xs.length : ℚ) (powSum xs 1) (powSum xs 2)
       (powSum xs 1) (powSum xs 2) (powSum xs 3)
       (powSum xs 2) (powSum xs 3) (powSum xs 4)

/-- `quadraticFit` (MACCApp.jsx:104-145): fit `y = a + b x + c x^2` by
Cramer's rule on the power-sum normal equations; degenerate when
`n < 3` or `|D| < 1e-12`; `r2 = 1 - SSE/SST`, `none` when `SST = 0`. -/
def quadraticFit (xs ys : List ℚ) : QuadFit :=
  let n := xs.length
  if n < 3 then ⟨0, 0, 0, none⟩ else
  let pts := xs.zip ys
  let Sx := (pts.map (fun p => p.1)).sum
  let Sx2 := (pts.map (fun p => p.1 ^ 2)).sum
  let Sx3 := (pts.map (fun p => p.1 ^ 3)).sum
  let Sx4 := (pts.map (fun p => p.1 ^ 4)).sum
  let Sy := (pts.map (fun p => p.2)).sum
  let Sxy := (pts.map (fun p => p.1 * p.2)).sum
  let Sx2y := (pts.map (fun p => p.1 ^ 2 * p.2)).sum
  let D := det3 (n : ℚ) Sx Sx2 Sx Sx2 Sx3 Sx2 Sx3 Sx4
  if |D| < 1 / 10 ^ 12 then ⟨0, 0, 0, none⟩ else
  let a := det3 Sy Sx Sx2 Sxy Sx2 Sx3 Sx2y Sx3 Sx4 / D
  let b := det3 (n : ℚ) Sy Sx2 Sx Sxy Sx3 Sx2 Sx2y Sx4 / D
  let c := det3 (n : ℚ) Sx Sy Sx Sx2 Sxy Sx2 Sx3 Sx2y / D
  let yMean := ys.sum / (n : ℚ)
  let sse := (pts.map (fun p => (p.2 - (a + b * p.1 + c * p.1 ^ 2)) ^ 2)).sum
  let sst := (pts.map (fun p => (p.2 - yMean) ^ 2)).sum
  ⟨a, b, c, if sst > 0 then some (1 - sse / sst) else none⟩

/-! ## Measure computation engine (MACCApp.jsx lines 218-238, 476-629, 644-682) -/

/-- Fuel / raw-material / transport / waste catalog row; the getters
tolerate missing fields, so each field is optional. -/
structure FRTWRow where
  name : String
  price : Option ℚ
  price_per_unit_inr : Option ℚ
  ef_tco2_per_unit : Option ℚ
  ef_t_per_unit : Option ℚ

/-- Electricity catalog row. -/
structure ElecRow where
  state : String
  price_per_mwh : Option ℚ
  price_per_mwh_inr : Option ℚ
  ef_tco2_per_mwh : Option ℚ

/-- `getUnitPrice` (MACCApp.jsx:218): `row?.price ?? row?.price_per_unit_inr ?? 0`. -/
def getUnitPrice (row : Option FRTWRow) : ℚ :=
  ((row.bind (fun r => r.price)).orElse (fun _ => row.bind (fun r => r.price_per_unit_inr))).getD 0

/-- `getEFperUnit` (MACCApp.jsx:219): `row?.ef_tco2_per_unit ?? row?.ef_t_per_unit ?? 0`. -/
def getEFperUnit (row : Option FRTWRow) : ℚ :=
  ((row.bind (fun r => r.ef_tco2_per_unit)).orElse (fun _ => row.bind (fun r => r.ef_t_per_unit))).getD 0

/-- `getElecPricePerMWh` (MACCApp.jsx:220): defaults to 500 per MWh. -/
def getElecPricePerMWh (row : Option ElecRow) : ℚ :=
  ((row.bind (fun r => r.price_per_mwh)).orElse (fun _ => row.bind (fun r => r.price_per_mwh_inr))).getD 500

/-- `getElecEFperMWh` (MACCApp.jsx:221): defaults to 0.710 tCO2 per MWh. -/
def getElecEFperMWh (row : Option ElecRow) : ℚ :=
  (row.bind (fun r => r.ef_tco2_per_mwh)).getD (710 / 1000)

/-- One fuel / raw / transport / waste driver line of the wizard. -/
structure DriverLine where
  name : String
  priceOv : Option ℚ
  efOv : Option ℚ
  priceEscPctYr : ℚ
  efEscPctYr : ℚ
  delta : List ℚ

/-- One electricity line of the wizard; `efOvPerYear` entries are blank
(`none`) or a verbatim per-year emission-factor override. -/
structure ElecLine where
  state : String
  priceOv : Option ℚ
  priceEscPctYr : ℚ
  efEscPctYr : ℚ
  efOvPerYear : List (Option ℚ)
  deltaMWh : List ℚ

/-- Per-year contribution `(emissions_t, cost_cr)` of one non-electric
driver line (MACCApp.jsx:488-502 and the three identical blocks). -/
def driverLineContrib (catalog : List FRTWRow) (ln : DriverLine) (i : Nat) (a : ℚ)
    (ysb : Nat) : ℚ × ℚ :=
  let base := catalog.find? (fun x => x.name = ln.name)
  let basePrice := ln.priceOv.getD (getUnitPrice base)
  let effPrice := basePrice * (1 + ln.priceEscPctYr / 100) ^ ysb
  let baseEf := ln.efOv.getD (getEFperUnit base)
  let effEf := baseEf * (1 + ln.efEscPctYr / 100) ^ ysb
  let qty := a * ln.delta.getD i 0
  (qty * effEf, qty * effPrice / 10000000)

/-- Electricity row resolution (MACCApp.jsx:557):
`find(state) || DS_ELECTRICITY[0]`. -/
def elecResolvedRow (catalog : List ElecRow) (state : String) : Option ElecRow :=
  (catalog.find? (fun x => x.state = state)).orElse (fun _ => catalog.head?)

/-- Effective electricity emission factor for year index `i`
(MACCApp.jsx:562-565): a non-blank per-year override is used verbatim,
otherwise the catalog factor drifted from the base year. -/
def elecEffEF (catalog : List ElecRow) (ln : ElecLine) (i : Nat) (ysb : Nat) : ℚ :=
  match ln.efOvPerYear.getD i none with
  | some v => v
  | none => getElecEFperMWh (elecResolvedRow catalog ln.state) * (1 + ln.efEscPctYr / 100) ^ ysb

/-- Per-year contribution `(emissions_t, cost_cr)` of one electricity
line (MACCApp.jsx:556-571). -/
def elecLineContrib (catalog : List ElecRow) (ln : ElecLine) (i : Nat) (a : ℚ)
    (ysb : Nat) : ℚ × ℚ :=
  let base := elecResolvedRow catalog ln.state
  let basePrice := ln.priceOv.getD (getElecPricePerMWh base)
  let effPrice := basePrice * (1 + ln.priceEscPctYr / 100) ^ ysb
  let effEf := elecEffEF catalog ln i ysb
  let mwh := a * ln.deltaMWh.getD i 0
  (mwh * effEf, mwh * effPrice / 10000000)

/-- Cost stack, one list entry per modeled year (MACCApp.jsx:577-587). -/
structure CostStack where
  opex_cr : List ℚ
  savings_cr : List ℚ
  other_cr : List ℚ
  capex_upfront_cr : List ℚ
  capex_financed_cr : List ℚ
  interest_rate_pct : List ℚ
  financing_tenure_years : List Nat

/-- Resolved catalogs consulted by the engine. -/
structure Catalogs where
  fuels : List FRTWRow
  raw : List FRTWRow
  transport : List FRTWRow
  waste : List FRTWRow
  electricity : List ElecRow

/-- Live wizard state that `computed` consumes (MACCApp.jsx:476-629). -/
structure WizardState where
  fuelLines : List DriverLine
  rawLines : List DriverLine
  transLines : List DriverLine
  wasteLines : List DriverLine
  elecLines : List ElecLine
  adoption : List ℚ
  otherDirectT : List ℚ
  stack : CostStack
  carbonPrice : ℚ

/-- One row of `computed.perYear` (MACCApp.jsx:598-603). -/
structure YearRow where
  year : Int
  direct_t : ℚ
  net_cost_cr : ℚ
  implied_cost_per_t_wo : ℚ
  implied_cost_per_t_w : ℚ
  cashflow_inr_wo_cp : ℚ
  cashflow_inr_w_cp : ℚ
deriving DecidableEq

/-- Modeled year list of the deployment (MACCApp.jsx:477). -/
def YEARS : List Int := [2025, 2030, 2035, 2040, 2045, 2050]

/-- Base year of the deployment (MACCApp.jsx:478). -/
def BASE_YEAR : Int := 2025

/-- Engine body for year index `i` (MACCApp.jsx:480-604). -/
def computeYearRow (cat : Catalogs) (w : WizardState) (i : Nat) (year : Int) : YearRow :=
  let a := max 0 (min 1 (w.adoption.getD i 0))
  let ysb := (year - BASE_YEAR).toNat
  let fuel_t := (w.fuelLines.map (fun ln => (driverLineContrib cat.fuels ln i a ysb).1)).sum
  let raw_t := (w.rawLines.map (fun ln => (driverLineContrib cat.raw ln i a ysb).1)).sum
  let trans_t := (w.transLines.map (fun ln => (driverLineContrib cat.transport ln i a ysb).1)).sum
  let waste_t := (w.wasteLines.map (fun ln => (driverLineContrib cat.waste ln i a ysb).1)).sum
  let elec_t := (w.elecLines.map (fun ln => (elecLineContrib cat.electricity ln i a ysb).1)).sum
  let driver_cr :=
    (w.fuelLines.map (fun ln => (driverLineContrib cat.fuels ln i a ysb).2)).sum +
    (w.rawLines.map (fun ln => (driverLineContrib cat.raw ln i a ysb).2)).sum +
    (w.transLines.map (fun ln => (driverLineContrib cat.transport ln i a ysb).2)).sum +
    (w.wasteLines.map (fun ln => (driverLineContrib cat.waste ln i a ysb).2)).sum +
    (w.elecLines.map (fun ln => (elecLineContrib cat.electricity ln i a ysb).2)).sum
  let other_t := a * w.otherDirectT.getD i 0
  let direct_t := fuel_t + raw_t + trans_t + waste_t + elec_t + other_t
  let opex_cr := w.stack.opex_cr.getD i 0
  let savings_cr := w.stack.savings_cr.getD i 0
  let other_cr := w.stack.other_cr.getD i 0
  let capex_upfront_cr := w.stack.capex_upfront_cr.getD i 0
  let capex_financed_cr := w.stack.capex_financed_cr.getD i 0
  let i_nominal := w.stack.interest_rate_pct.getD i 0 / 100
  let n_tenure := w.stack.financing_tenure_years.getD i 0
  let financedAnnual_cr :=
    if capex_financed_cr > 0 ∧ i_nominal > 0 ∧ n_tenure > 0
    then capex_financed_cr * annuityFactor i_nominal n_tenure else 0
  let net_cost_cr := (driver_cr + opex_cr + other_cr - savings_cr) + financedAnnual_cr
  let cashflow_inr_wo_cp :=
    (savings_cr - opex_cr - driver_cr - other_cr - financedAnnual_cr - capex_upfront_cr) * 10000000
  let cashflow_inr_w_cp := cashflow_inr_wo_cp + w.carbonPrice * direct_t
  let implied_cost_per_t_wo := if direct_t > 0 then net_cost_cr * 10000000 / direct_t else 0
  let implied_cost_per_t_w :=
    if direct_t > 0 then (net_cost_cr * 10000000 - w.carbonPrice * direct_t) / direct_t else 0
  { year := year, direct_t := direct_t, net_cost_cr := net_cost_cr,
    implied_cost_per_t_wo := implied_cost_per_t_wo,
    implied_cost_per_t_w := implied_cost_per_t_w,
    cashflow_inr_wo_cp := cashflow_inr_wo_cp,
    cashflow_inr_w_cp := cashflow_inr_w_cp }

/-- `computed.perYear` over the deployment years (MACCApp.jsx:480-604). -/
def computePerYear (cat : Catalogs) (w : WizardState) : List YearRow :=
  YEARS.enum.map (fun p => computeYearRow cat w p.1 p.2)

/-- `computed.repIdx` (MACCApp.jsx:606-607). -/
def computedRepIdx (cat : Catalogs) (w : WizardState) : Nat :=
  repIdx YEARS ((computePerYear cat w).map (fun y => y.direct_t))

/-- Fallback representative row `{direct_t: 0, ...}` (MACCApp.jsx:626). -/
def defaultRep : YearRow :=
  { year := 0, direct_t := 0, net_cost_cr := 0, implied_cost_per_t_wo := 0,
    implied_cost_per_t_w := 0, cashflow_inr_wo_cp := 0, cashflow_inr_w_cp := 0 }

/-- `computed.rep` (MACCApp.jsx:626). -/
def computedRep (cat : Catalogs) (w : WizardState) : YearRow :=
  (computePerYear cat w).getD (computedRepIdx cat w) defaultRep

/-- Measure record produced by the template save path. -/
structure SavedMeasure where
  abatement_tco2 : ℚ
  cost_per_tco2 : ℚ
  saved_cost_includes_carbon_price : Bool
  carbon_price_at_save : ℚ
deriving DecidableEq

/-- `saveTemplate` (MACCApp.jsx:644-682): headline abatement is the
representative-year `direct_t` clamped at 0, headline cost is the
representative implied cost (with or without carbon price). -/
def saveTemplate (cat : Catalogs) (w : WizardState) (applyCP : Bool) : SavedMeasure :=
  let rep := computedRep cat w
  { abatement_tco2 := max 0 rep.direct_t,
    cost_per_tco2 := if applyCP then rep.implied_cost_per_t_w else rep.implied_cost_per_t_wo,
    saved_cost_includes_carbon_price := applyCP,
    carbon_price_at_save := w.carbonPrice }

/-! ## Concrete inputs used by witnesses and counterexamples -/

/-- Cost stack with no entries (all year cells blank, coerced to 0). -/
def emptyStack : CostStack := ⟨[], [], [], [], [], [], []⟩

/-- Empty resolved catalogs. -/
def emptyCat : Catalogs := ⟨[], [], [], [], []⟩

/-- Wizard state with full adoption and a uniformly negative
other-direct reduction series: every year is a net emissions increase. -/
def wNeg : WizardState :=
  ⟨[], [], [], [], [], [1, 1, 1, 1, 1, 1], [-1, -1, -1, -1, -1, -1], emptyStack, 0⟩

/-- Wizard state with full adoption and a uniformly positive
other-direct reduction series. -/
def wPos : WizardState :=
  ⟨[], [], [], [], [], [1, 1, 1, 1, 1, 1], [2, 2, 2, 2, 2, 2], emptyStack, 0⟩

/-- Electricity line with a single-year EF override of 5. -/
def elecLineOv : ElecLine := ⟨"Nowhere", none, 0, 50, [some 5], [1]⟩

/-- Fuel driver line naming a catalog entry that does not exist. -/
def fuelLineMissing : DriverLine := ⟨"Unobtainium", none, none, 3, 4, [1, 1, 1, 1, 1, 1]⟩

/-! ## Lemmas about the representative-year search -/

lemma findPosIdx_eq_none_iff (l : List ℚ) : findPosIdx l = none ↔ ∀ d ∈ l, ¬ 0 < d := by
  induction l with
  | nil => simp [findPosIdx]
  | cons d rest ih =>
    by_cases h : 0 < d
    · simp [findPosIdx, h]
    · simp [findPosIdx, h, ih, le_of_not_lt h]

lemma findPosIdx_first (l : List ℚ) (i : Nat) (hi : i < l.length)
    (hpos : 0 < l.getD i 0) (hmin : ∀ j, j < i → ¬ 0 < l.getD j 0) :
    findPosIdx l = some i := by
  induction l generalizing i with
  | nil => simp at hi
  | cons d rest ih =>
    cases i with
    | zero =>
      simp only [List.getD_cons_zero] at hpos
      simp [findPosIdx, hpos]
    | succ j =>
      have hd : ¬ 0 < d := by
        have := hmin 0 (Nat.succ_pos j)
        simpa using this
      have hrest : findPosIdx rest = some j := by
        apply ih
        · simpa using hi
        · simpa using hpos
        · intro k hk
          have := hmin (k + 1) (by omega)
          simpa using this
      simp [findPosIdx, hd, hrest]

/-- C1: the representative-year index is the first index with positive
`direct_t`; with no positive year it is the index of 2035 when present
in the year list, else the middle index; for an all-zero series over
the deployment years it is 2. -/
theorem repIdx_policy (years : List Int) (direct : List ℚ) :
    (∀ i, i < direct.length → 0 < direct.getD i 0 → (∀ j, j < i → ¬ 0 < direct.getD j 0) →
      repIdx years direct = i) ∧
    ((∀ d ∈ direct, ¬ 0 < d) → 2035 ∈ years → repIdx years direct = years.indexOf 2035) ∧
    ((∀ d ∈ direct, ¬ 0 < d) → 2035 ∉ years → repIdx years direct = years.length / 2) ∧
    repIdx YEARS (List.replicate 6 0) = 2 := by
  refine ⟨?_, ?_, ?_, by decide⟩
  · intro i hi hpos hmin
    have h := findPosIdx_first direct i hi hpos hmin
    simp [repIdx, h]
  · intro hall hmem
    have h := (findPosIdx_eq_none_iff direct).mpr hall
    simp [repIdx, h, hmem]
  · intro hall hmem
    have h := (findPosIdx_eq_none_iff direct).mpr hall
    simp [repIdx, h, hmem]

/-- Witness for C1: the first positive entry of `[0, 5]` is at index 1. -/
theorem repIdx_policy_witness : repIdx [2025, 2030] [0, 5] = 1 := by
  apply (repIdx_policy [2025, 2030] [0, 5]).1 1 (by decide) (by decide)
  intro j hj
  interval_cases j
  decide

/-- C3: the effective cost used for ranking subtracts only the carbon
price delta when the saved cost already embedded the carbon price at
save time, and the full carbon price otherwise. -/
theorem effectiveCost_policy :
    (∀ (cost abate cpSave cpNow : ℚ) (flag : Bool),
      effectiveCost ⟨cost, abate, some ⟨flag, cpSave⟩⟩ cpNow =
        if flag then cost - (cpNow - cpSave) else cost - cpNow) ∧
    effectiveCost ⟨100, 0, some ⟨true, 500⟩⟩ 700 = -100 ∧
    effectiveCost ⟨100, 0, some ⟨false, 0⟩⟩ 50 = 50 := by
  refine ⟨fun cost abate cpSave cpNow flag => ?_, by norm_num [effectiveCost], by norm_num [effectiveCost]⟩
  cases flag <;> simp [effectiveCost]

/-- C8: a non-blank per-year electricity EF override is used verbatim
(the drift parameter is ignored entirely for that year), and a blank
entry falls back to the drifted catalog factor. -/
theorem elecEffEF_policy (cat : List ElecRow) (ln : ElecLine) (i : Nat) (ysb : Nat) :
    (∀ v, ln.efOvPerYear.getD i none = some v →
      elecEffEF cat ln i ysb = v ∧
      ∀ esc, elecEffEF cat { ln with efEscPctYr := esc } i ysb = v) ∧
    (ln.efOvPerYear.getD i none = none →
      elecEffEF cat ln i ysb =
        getElecEFperMWh (elecResolvedRow cat ln.state) * (1 + ln.efEscPctYr / 100) ^ ysb) ∧
    (∀ a, (elecLineContrib cat ln i a ysb).1 = a * ln.deltaMWh.getD i 0 * elecEffEF cat ln i ysb) := by
  refine ⟨fun v hv => ⟨?_, fun esc => ?_⟩, fun hv => ?_, fun a => ?_⟩
  · unfold elecEffEF
    rw [hv]
  · have h2 : ({ ln with efEscPctYr := esc } : ElecLine).efOvPerYear.getD i none = some v := hv
    unfold elecEffEF
    rw [h2]
  · unfold elecEffEF
    rw [hv]
  · simp [elecLineContrib]

/-- Witness for C8: a year-0 override of 5 is returned verbatim even
with a 50 percent drift configured. -/
theorem elecEffEF_policy_witness : elecEffEF [] elecLineOv 0 3 = 5 :=
  ((elecEffEF_policy [] elecLineOv 0 3).1 5 (by simp [elecLineOv])).1

/-- C10: a non-electric driver line whose name resolves to no catalog
row and which carries no override contributes exactly zero emissions and
zero cost, while electricity lines fall back to the first catalog row
and then to the hardcoded defaults of 500 per MWh and 0.710 tCO2 per
MWh. -/
theorem catalogFallback_policy :
    (∀ (catalog : List FRTWRow) (ln : DriverLine) (i : Nat) (a : ℚ) (ysb : Nat),
      catalog.find? (fun x => x.name = ln.name) = none → ln.priceOv = none → ln.efOv = none →
      driverLineContrib catalog ln i a ysb = (0, 0)) ∧
    (∀ (catalog : List ElecRow) (state : String),
      catalog.find? (fun x => x.state = state) = none →
      elecResolvedRow catalog state = catalog.head?) ∧
    getElecPricePerMWh none = 500 ∧
    getElecEFperMWh none = 710 / 1000 ∧
    (∀ s p1 p2, getElecEFperMWh (some ⟨s, p1, p2, none⟩) = 710 / 1000) ∧
    (∀ s e, getElecPricePerMWh (some ⟨s, none, none, e⟩) = 500) ∧
    getUnitPrice none = 0 ∧
    getEFperUnit none = 0 := by
  refine ⟨?_, ?_, by simp [getElecPricePerMWh], by simp [getElecEFperMWh],
    fun s p1 p2 => by simp [getElecEFperMWh], fun s e => by simp [getElecPricePerMWh],
    by simp [getUnitPrice], by simp [getEFperUnit]⟩
  · intro catalog ln i a ysb hfind hpov hefov
    simp [driverLineContrib, hfind, hpov, hefov, getUnitPrice, getEFperUnit]
  · intro catalog state hfind
    simp [elecResolvedRow, hfind, Option.orElse]

/-- Witness for C10: a fuel line naming a missing catalog entry
contributes nothing even with nonzero delta and drift. -/
theorem catalogFallback_policy_witness :
    driverLineContrib [] fuelLineMissing 0 1 2 = (0, 0) :=
  (catalogFallback_policy).1 [] fuelLineMissing 0 1 2 rfl rfl rfl

/-! ## Lemmas about the IRR bisection -/

lemma bisect_bounds (f : ℚ → ℚ) (fuel : Nat) (lo hi fLo fHi : ℚ) (h : lo ≤ hi) :
    lo ≤ bisect f fuel lo hi fLo fHi ∧ bisect f fuel lo hi fLo fHi ≤ hi := by
  induction fuel generalizing lo hi fLo fHi with
  | zero =>
    constructor <;> simp only [bisect] <;> linarith
  | succ n ih =>
    have hm1 : lo ≤ (lo + hi) / 2 := by linarith
    have hm2 : (lo + hi) / 2 ≤ hi := by linarith
    simp only [bisect]
    split
    · exact ⟨hm1, hm2⟩
    · split
      · have h2 := ih lo ((lo + hi) / 2) fLo (f ((lo + hi) / 2)) hm1
        exact ⟨h2.1, le_trans h2.2 hm2⟩
      · have h2 := ih ((lo + hi) / 2) hi (f ((lo + hi) / 2)) fHi hm2
        exact ⟨le_trans hm1 h2.1, h2.2⟩

lemma mem_of_enumFrom {α : Type} (l : List α) (k : Nat) (p : Nat × α)
    (h : p ∈ l.enumFrom k) : p.2 ∈ l := by
  induction l generalizing k with
  | nil => simp [List.enumFrom] at h
  | cons a rest ih =>
    simp only [List.enumFrom, List.mem_cons] at h
    rcases h with h | h
    · simp [h]
    · exact List.mem_cons_of_mem a (ih (k + 1) h)

lemma npv_pos (r : ℚ) (hr : 0 < 1 + r) (amounts : List ℚ) (years : List Int) (baseYear : Int)
    (hne : amounts ≠ []) (hpos : ∀ x ∈ amounts, 0 < x) : 0 < npv r amounts years baseYear := by
  match amounts, hne with
  | a :: rest, _ =>
    have hterm : 0 < a / (1 + r) ^ (years.getD 0 0 - baseYear).toNat :=
      div_pos (hpos a (List.mem_cons_self a rest)) (pow_pos hr _)
    have htail : 0 ≤ ((rest.enumFrom 1).map
        (fun p => p.2 / (1 + r) ^ (years.getD p.1 0 - baseYear).toNat)).sum := by
      apply List.sum_nonneg
      intro x hx
      rcases List.mem_map.mp hx with ⟨p, hp, rfl⟩
      have hmem : p.2 ∈ rest := mem_of_enumFrom rest 1 p hp
      exact le_of_lt (div_pos (hpos p.2 (List.mem_cons_of_mem a hmem)) (pow_pos hr _))
    have : npv r (a :: rest) years baseYear =
        a / (1 + r) ^ (years.getD 0 0 - baseYear).toNat +
        ((rest.enumFrom 1).map
          (fun p => p.2 / (1 + r) ^ (years.getD p.1 0 - baseYear).toNat)).sum := by
      simp [npv, List.enum, List.enumFrom]
    rw [this]
    linarith

/-- C5: `irr` returns no rate whenever the NPV values at the bracket
ends have the same strict sign; in particular an all-positive cashflow
series yields no IRR, and any returned rate lies inside `[-0.9, 3]`. -/
theorem irr_policy (amounts : List ℚ) (years : List Int) (baseYear : Int) :
    (npv (-9 / 10) amounts years baseYear * npv 3 amounts years baseYear > 0 →
      irr amounts years baseYear = none) ∧
    (amounts ≠ [] → (∀ x ∈ amounts, 0 < x) → irr amounts years baseYear = none) ∧
    (∀ r, irr amounts years baseYear = some r → -9 / 10 ≤ r ∧ r ≤ 3) := by
  refine ⟨fun h => by simp [irr, h], fun hne hpos => ?_, fun r hr => ?_⟩
  · have h1 : 0 < npv (-9 / 10) amounts years baseYear :=
      npv_pos _ (by norm_num) _ _ _ hne hpos
    have h2 : 0 < npv 3 amounts years baseYear :=
      npv_pos _ (by norm_num) _ _ _ hne hpos
    simp [irr, mul_pos h1 h2]
  · unfold irr at hr
    by_cases hb : npv (-9 / 10) amounts years baseYear * npv 3 amounts years baseYear > 0
    · simp [hb] at hr
    · simp only [hb, if_neg, ite_false] at hr
      have hbnd := bisect_bounds (fun s => npv s amounts years baseYear) 100 (-9 / 10) 3
        (npv (-9 / 10) amounts years baseYear) (npv 3 amounts years baseYear) (by norm_num)
      rw [Option.some_inj] at hr
      rw [← hr]
      exact hbnd

/-- Witness for C5: a strictly positive cashflow series has no
bracketed root, so the IRR is null. -/
theorem irr_policy_witness : irr [1, 1] [2025, 2030] 2025 = none :=
  (irr_policy [1, 1] [2025, 2030] 2025).2.1 (by simp) (by
    intro x hx
    rcases List.mem_cons.mp hx with rfl | hx
    · norm_num
    · rcases List.mem_cons.mp hx with rfl | hx
      · norm_num
      · simp at hx)

/-! ## Lemmas about the curve builder -/

lemma plotX_mono (mode : CurveMode) (denom : ℚ) {x y : ℚ} (h : x ≤ y) :
    plotX mode denom x ≤ plotX mode denom y := by
  cases mode with
  | capacity => simpa [plotX] using h
  | intensity =>
    simp only [plotX]
    split
    · gcongr
    · exact le_refl 0

lemma buildSegments_head (mode : CurveMode) (denom : ℚ) :
    ∀ (ms : List RankedMeasure) (cum : ℚ) (s : Segment),
      (buildSegments mode denom ms cum).head? = some s → s.x1_plot = plotX mode denom cum := by
  intro ms
  induction ms with
  | nil => intro cum s h; simp [buildSegments] at h
  | cons m rest ih =>
    intro cum s h
    by_cases hA : m.abatement_tco2 ≤ 0
    · rw [buildSegments, if_pos hA] at h
      exact ih cum s h
    · rw [buildSegments, if_neg hA] at h
      simp only [List.head?_cons, Option.some_inj] at h
      rw [← h]

lemma buildSegments_chain (mode : CurveMode) (denom : ℚ) :
    ∀ (ms : List RankedMeasure) (cum : ℚ),
      List.Chain' (fun s t => s.x2_plot = t.x1_plot) (buildSegments mode denom ms cum) := by
  intro ms
  induction ms with
  | nil => intro cum; simp [buildSegments]
  | cons m rest ih =>
    intro cum
    by_cases hA : m.abatement_tco2 ≤ 0
    · rw [buildSegments, if_pos hA]
      exact ih cum
    · rw [buildSegments, if_neg hA]
      rw [List.chain'_cons']
      refine ⟨fun t ht => ?_, ih _⟩
      have := buildSegments_head mode denom rest (cum + max 0 m.abatement_tco2) t ht
      simpa using this.symm

lemma buildSegments_mem (mode : CurveMode) (denom : ℚ) :
    ∀ (ms : List RankedMeasure) (cum : ℚ) (s : Segment),
      s ∈ buildSegments mode denom ms cum → s.x1_plot ≤ s.x2_plot ∧ 0 < s.abatement := by
  intro ms
  induction ms with
  | nil => intro cum s h; simp [buildSegments] at h
  | cons m rest ih =>
    intro cum s h
    by_cases hA : m.abatement_tco2 ≤ 0
    · rw [buildSegments, if_pos hA] at h
      exact ih cum s h
    · rw [buildSegments, if_neg hA] at h
      simp only [List.mem_cons] at h
      rcases h with rfl | h
      · refine ⟨plotX_mono mode denom ?_, lt_of_not_le hA⟩
        have : 0 ≤ max 0 m.abatement_tco2 := le_max_left 0 _
        linarith
      · exact ih _ s h

lemma buildSegments_length (mode : CurveMode) (denom : ℚ) :
    ∀ (ms : List RankedMeasure) (cum : ℚ),
      (buildSegments mode denom ms cum).length =
        (ms.filter (fun m => 0 < m.abatement_tco2)).length := by
  intro ms
  induction ms with
  | nil => intro cum; simp [buildSegments]
  | cons m rest ih =>
    intro cum
    by_cases hA : m.abatement_tco2 ≤ 0
    · rw [buildSegments, if_pos hA]
      rw [List.filter_cons_of_neg (by simpa using hA)]
      exact ih cum
    · rw [buildSegments, if_neg hA]
      rw [List.filter_cons_of_pos (by simpa using lt_of_not_le hA)]
      simp [ih]

/-- C4: the curve builder emits one segment per measure with positive
abatement, consecutive segments are contiguous (`x2` of one equals `x1`
of the next), and each segment satisfies `x1 ≤ x2`, in both capacity
and intensity mode; hence the `x2` sequence is non-decreasing with no
gaps or overlaps. -/
theorem buildSegments_policy (mode : CurveMode) (denom : ℚ) (ms : List RankedMeasure) :
    List.Chain' (fun s t => s.x2_plot = t.x1_plot) (buildSegments mode denom ms 0) ∧
    (∀ s ∈ buildSegments mode denom ms 0, s.x1_plot ≤ s.x2_plot ∧ 0 < s.abatement) ∧
    (buildSegments mode denom ms 0).length =
      (ms.filter (fun m => 0 < m.abatement_tco2)).length :=
  ⟨buildSegments_chain mode denom ms 0,
   fun s hs => buildSegments_mem mode denom ms 0 s hs,
   buildSegments_length mode denom ms 0⟩

/-- Witness for C4: the single positive measure of a one-element ranked
list yields the segment from 0 to its abatement. -/
theorem buildSegments_policy_witness :
    (⟨0, 5, 3, 5⟩ : Segment).x1_plot ≤ (⟨0, 5, 3, 5⟩ : Segment).x2_plot ∧
      0 < (⟨0, 5, 3, 5⟩ : Segment).abatement :=
  (buildSegments_policy .capacity 1 [⟨5, 3⟩]).2.1 ⟨0, 5, 3, 5⟩ (by
    norm_num [buildSegments, plotX])

/-! ## Lemmas about interpolation -/

lemma interp_leading (lead : Nat) (rest : List (Option ℚ)) :
    interpolateSeries (List.replicate lead none ++ rest) =
      List.replicate lead none ++ interpolateSeries rest := by
  induction lead with
  | zero => simp
  | succ n ih => simpa [List.replicate_succ, interpolateSeries] using ih

lemma afterFill_gap (g : Nat) : ∀ (buf : Nat) (last b : ℚ) (rest : List (Option ℚ)),
    afterFill last buf (List.replicate g none ++ some b :: rest) =
      (List.range (buf + g)).map
        (fun k => some (last + ((b - last) / (((buf + g : Nat) : ℚ) + 1)) * ((k : ℚ) + 1)))
        ++ some b :: afterFill b 0 rest := by
  induction g with
  | zero =>
    intro buf last b rest
    simp [afterFill, fillVals]
  | succ n ih =>
    intro buf last b rest
    have h1 : List.replicate (n + 1) (none : Option ℚ) ++ some b :: rest =
        none :: (List.replicate n none ++ some b :: rest) := by
      simp [List.replicate_succ]
    rw [h1]
    show afterFill last (buf + 1) (List.replicate n none ++ some b :: rest) = _
    rw [ih (buf + 1) last b rest]
    have h2 : buf + 1 + n = buf + (n + 1) := by omega
    rw [h2]

lemma afterFill_trailing (t : Nat) : ∀ (buf : Nat) (last : ℚ),
    afterFill last buf (List.replicate t none) = List.replicate (buf + t) none := by
  induction t with
  | zero => intro buf last; simp [afterFill]
  | succ n ih =>
    intro buf last
    rw [List.replicate_succ]
    show afterFill last (buf + 1) (List.replicate n none) = _
    rw [ih (buf + 1) last]
    congr 1
    omega

/-- C6: interpolation fills an interior run of `g` blanks between
filled values `a` and `b` with the evenly spaced values
`a + (b-a)/(g+1)*(k+1)`, processes the remainder starting from `b`
unchanged in form, leaves leading and trailing blanks untouched, and
maps `[5, blank, blank, 20, blank]` to `[5, 10, 15, 20, blank]`. -/
theorem interpolateSeries_policy (lead g t : Nat) (a b : ℚ) (rest : List (Option ℚ)) :
    interpolateSeries
        (List.replicate lead none ++ some a :: (List.replicate g none ++ some b :: rest)) =
      List.replicate lead none ++ some a ::
        ((List.range g).map (fun k => some (a + ((b - a) / ((g : ℚ) + 1)) * ((k : ℚ) + 1)))
          ++ interpolateSeries (some b :: rest)) ∧
    interpolateSeries (List.replicate lead none ++ some a :: List.replicate t none) =
      List.replicate lead none ++ some a :: List.replicate t none ∧
    interpolateSeries [some 5, none, none, some 20, none] =
      [some 5, some 10, some 15, some 20, none] := by
  refine ⟨?_, ?_, by norm_num [interpolateSeries, afterFill, fillVals, List.range_succ]⟩
  · rw [interp_leading]
    show List.replicate lead none ++ some a :: afterFill a 0 (List.replicate g none ++ some b :: rest) = _
    rw [afterFill_gap g 0 a b rest]
    show _ = List.replicate lead none ++ some a ::
      ((List.range g).map (fun k => some (a + ((b - a) / ((g : ℚ) + 1)) * ((k : ℚ) + 1)))
        ++ some b :: afterFill b 0 rest)
    simp
  · rw [interp_leading]
    show List.replicate lead none ++ some a :: afterFill a 0 (List.replicate t none) = _
    rw [afterFill_trailing t 0 a]
    simp

/-! ## Lemmas about the merged catalog map -/

lemma insertMap_lookup_self {α : Type} (m : List (String × α)) (k : String) (v : α) :
    lookupKey (insertMap m k v) k = some v := by
  unfold insertMap
  by_cases h : m.any (fun p => p.1 = k)
  · rw [if_pos h]
    induction m with
    | nil => simp at h
    | cons p rest ih =>
      by_cases hp : p.1 = k
      · simp [lookupKey, List.find?, hp]
      · have hrest : rest.any (fun q => q.1 = k) := by
          simp only [List.any_cons] at h
          simpa [hp] using h
        simp only [List.map_cons, if_neg hp]
        have := ih hrest
        simp only [lookupKey, List.find?] at this ⊢
        simpa [hp] using this
  · rw [if_neg h]
    have hnone : m.find? (fun p => p.1 = k) = none := by
      rw [List.find?_eq_none]
      intro p hp
      intro hc
      exact h (List.any_of_mem hp hc)
    unfold lookupKey
    rw [List.find?_append, hnone]
    simp [List.find?]

lemma find?_map_overwrite {α : Type} (k1 k : String) (v : α) (hne : k1 ≠ k)
    (m : List (String × α)) :
    (m.map (fun p => if p.1 = k1 then (k1, v) else p)).find? (fun p => p.1 = k) =
      m.find? (fun p => p.1 = k) := by
  induction m with
  | nil => rfl
  | cons p rest ih =>
    rw [List.map_cons]
    by_cases hp : p.1 = k
    · have hp1 : ¬ p.1 = k1 := by
        rw [hp]; exact fun hc => hne hc.symm
      rw [if_neg hp1]
      rw [List.find?_cons_of_pos _ (by simpa using hp),
          List.find?_cons_of_pos _ (by simpa using hp)]
    · by_cases hp1 : p.1 = k1
      · rw [if_pos hp1]
        rw [List.find?_cons_of_neg _ (by simpa using hne),
            List.find?_cons_of_neg _ (by simpa using hp)]
        exact ih
      · rw [if_neg hp1]
        rw [List.find?_cons_of_neg _ (by simpa using hp),
            List.find?_cons_of_neg _ (by simpa using hp)]
        exact ih

lemma insertMap_lookup_other {α : Type} (m : List (String × α)) (k1 k : String) (v : α)
    (hne : k1 ≠ k) : lookupKey (insertMap m k1 v) k = lookupKey m k := by
  unfold insertMap
  by_cases h : m.any (fun p => p.1 = k1)
  · rw [if_pos h]
    unfold lookupKey
    rw [find?_map_overwrite k1 k v hne m]
  · rw [if_neg h]
    unfold lookupKey
    rw [List.find?_append]
    have h2 : List.find? (fun p => p.1 = k) [(k1, v)] = none := by
      rw [List.find?_cons_of_neg _ (by simpa using hne)]
      rfl
    rw [h2]
    cases m.find? (fun p => p.1 = k) <;> rfl

lemma insertRows_lookup_skip {α : Type} (key : α → String) (l : List α) :
    ∀ (m : List (String × α)) (k : String),
      (∀ x ∈ l, key x ≠ "" → lowerStr (key x) ≠ k) →
      lookupKey (insertRows key m l) k = lookupKey m k := by
  induction l with
  | nil => intro m k h; rfl
  | cons x rest ih =>
    intro m k h
    unfold insertRows
    by_cases hx : key x = ""
    · rw [if_pos hx]
      exact ih m k (fun y hy => h y (List.mem_cons_of_mem x hy))
    · rw [if_neg hx]
      rw [ih _ k (fun y hy => h y (List.mem_cons_of_mem x hy))]
      exact insertMap_lookup_other m (lowerStr (key x)) k x
        (h x (List.mem_cons_self x rest) hx)

lemma insertRows_append {α : Type} (key : α → String) (l1 l2 : List α) :
    ∀ (m : List (String × α)),
      insertRows key m (l1 ++ l2) = insertRows key (insertRows key m l1) l2 := by
  induction l1 with
  | nil => intro m; rfl
  | cons x rest ih =>
    intro m
    simp only [List.cons_append]
    show insertRows key (if key x = "" then m else insertMap m (lowerStr (key x)) x) (rest ++ l2) =
      insertRows key (insertRows key (if key x = "" then m else insertMap m (lowerStr (key x)) x) rest) l2
    exact ih _

lemma lookupKey_mem_values {α : Type} (m : List (String × α)) (k : String) (v : α)
    (h : lookupKey m k = some v) : v ∈ m.map (fun p => p.2) := by
  unfold lookupKey at h
  cases hf : m.find? (fun p => p.1 = k) with
  | none => rw [hf] at h; simp at h
  | some p =>
    rw [hf] at h
    have hp : p.2 = v := by simpa using h
    have := List.mem_of_find?_eq_some hf
    rw [← hp]
    exact List.mem_map_of_mem (fun q => q.2) this

/-- C7: in merged catalog mode a row of the seed list survives
unmodified whenever no later seed row and no custom row shares its
case-insensitive key; a custom row with the same lower-cased key
overrides the sample row in place, and sample-only rows are kept. -/
theorem mergedBy_policy :
    (∀ (α : Type) (key : α → String) (pre post custom : List α) (x : α),
      key x ≠ "" →
      (∀ y ∈ post, key y ≠ "" → lowerStr (key y) ≠ lowerStr (key x)) →
      (∀ c ∈ custom, key c ≠ "" → lowerStr (key c) ≠ lowerStr (key x)) →
      x ∈ mergedBy key (pre ++ x :: post) custom) ∧
    mergedBy (fun r => r.name) [⟨"Coal", 100⟩, ⟨"Oil", 50⟩] [⟨"Coal", 150⟩] =
      ([⟨"Coal", 150⟩, ⟨"Oil", 50⟩] : List CatRow) ∧
    mergedBy (fun r => r.name) [⟨"Coal", 100⟩] [⟨"COAL", 150⟩] =
      ([⟨"COAL", 150⟩] : List CatRow) := by
  refine ⟨?_, by decide, by decide⟩
  intro α key pre post custom x hx hpost hcustom
  unfold mergedBy
  apply lookupKey_mem_values _ (lowerStr (key x))
  rw [insertRows_lookup_skip key custom _ _ hcustom]
  rw [insertRows_append]
  have h1 : insertRows key (insertRows key [] pre) (x :: post) =
      insertRows key (insertMap (insertRows key [] pre) (lowerStr (key x)) x) post := by
    show insertRows key
        (if key x = "" then insertRows key [] pre
         else insertMap (insertRows key [] pre) (lowerStr (key x)) x) post = _
    rw [if_neg hx]
  rw [h1]
  rw [insertRows_lookup_skip key post _ _ hpost]
  exact insertMap_lookup_self _ _ x

/-- Witness for C7: the sample-only row Oil survives a merge that
overrides Coal. -/
theorem mergedBy_policy_witness :
    (⟨"Oil", 50⟩ : CatRow) ∈ mergedBy (fun r => r.name) [⟨"Coal", 100⟩, ⟨"Oil", 50⟩] [⟨"Coal", 150⟩] :=
  mergedBy_policy.1 CatRow (fun r => r.name) [⟨"Coal", 100⟩] [] [⟨"Coal", 150⟩] ⟨"Oil", 50⟩
    (by decide) (by simp) (by
      intro c hc
      rcases List.mem_cons.mp hc with rfl | hc
      · intro _; decide
      · simp at hc)

/-! ## Lemmas about the engine on the concrete wizard states -/

lemma computePerYear_expand (cat : Catalogs) (w : WizardState) :
    computePerYear cat w = [computeYearRow cat w 0 2025, computeYearRow cat w 1 2030,
      computeYearRow cat w 2 2035, computeYearRow cat w 3 2040,
      computeYearRow cat w 4 2045, computeYearRow cat w 5 2050] := rfl

lemma wNeg_direct (i : Nat) (year : Int) (hi : i < 6) :
    (computeYearRow emptyCat wNeg i year).direct_t = -1 := by
  interval_cases i <;>
    norm_num [computeYearRow, wNeg, emptyCat, emptyStack, List.getD, List.get?]

lemma wPos_direct (i : Nat) (year : Int) (hi : i < 6) :
    (computeYearRow emptyCat wPos i year).direct_t = 2 := by
  interval_cases i <;>
    norm_num [computeYearRow, wPos, emptyCat, emptyStack, List.getD, List.get?]

lemma wNeg_rep : computedRep emptyCat wNeg = computeYearRow emptyCat wNeg 2 2035 := by
  have hmap : (computePerYear emptyCat wNeg).map (fun y => y.direct_t) =
      [-1, -1, -1, -1, -1, -1] := by
    rw [computePerYear_expand]
    simp only [List.map_cons, List.map_nil]
    rw [wNeg_direct 0 2025 (by omega), wNeg_direct 1 2030 (by omega),
        wNeg_direct 2 2035 (by omega), wNeg_direct 3 2040 (by omega),
        wNeg_direct 4 2045 (by omega), wNeg_direct 5 2050 (by omega)]
  have hnone : findPosIdx [-1, -1, -1, -1, -1, -1] = none := by
    apply (findPosIdx_eq_none_iff _).mpr
    intro d hd
    have hdm : d = -1 := by simpa using hd
    rw [hdm]
    norm_num
  have hidx : computedRepIdx emptyCat wNeg = 2 := by
    unfold computedRepIdx
    rw [hmap]
    unfold repIdx
    rw [hnone]
    decide
  unfold computedRep
  rw [hidx, computePerYear_expand]
  rfl

lemma wPos_rep : computedRep emptyCat wPos = computeYearRow emptyCat wPos 0 2025 := by
  have hmap : (computePerYear emptyCat wPos).map (fun y => y.direct_t) =
      [2, 2, 2, 2, 2, 2] := by
    rw [computePerYear_expand]
    simp only [List.map_cons, List.map_nil]
    rw [wPos_direct 0 2025 (by omega), wPos_direct 1 2030 (by omega),
        wPos_direct 2 2035 (by omega), wPos_direct 3 2040 (by omega),
        wPos_direct 4 2045 (by omega), wPos_direct 5 2050 (by omega)]
  have hsome : findPosIdx [(2 : ℚ), 2, 2, 2, 2, 2] = some 0 := by
    unfold findPosIdx
    rw [if_pos (by norm_num)]
  have hidx : computedRepIdx emptyCat wPos = 0 := by
    unfold computedRepIdx
    rw [hmap]
    unfold repIdx
    rw [hsome]
  unfold computedRep
  rw [hidx, computePerYear_expand]
  rfl

/-- Counterexample to C2 as stated: with an all-negative direct series
the representative entry has `direct_t = -1`, but the saved measure's
`abatement_tco2` is 0, not the representative `direct_t`. -/
theorem saveTemplate_counterexample :
    (saveTemplate emptyCat wNeg true).abatement_tco2 ≠ (computedRep emptyCat wNeg).direct_t ∧
    (saveTemplate emptyCat wNeg true).abatement_tco2 = 0 ∧
    (computedRep emptyCat wNeg).direct_t = -1 := by
  have hd : (computedRep emptyCat wNeg).direct_t = -1 := by
    rw [wNeg_rep]
    exact wNeg_direct 2 2035 (by omega)
  have ha : (saveTemplate emptyCat wNeg true).abatement_tco2 = 0 := by
    show max 0 (computedRep emptyCat wNeg).direct_t = 0
    rw [hd]
    norm_num
  exact ⟨by rw [ha, hd]; norm_num, ha, hd⟩

/-- C2 (amended): the measure saved from the template wizard carries
`cost_per_tco2` equal to the representative-year implied cost (the
with-carbon-price variant exactly when the save flag is set) and
`abatement_tco2` equal to the representative-year `direct_t` clamped
below at 0; the two agree whenever the representative `direct_t` is
nonnegative. -/
theorem saveTemplate_policy (cat : Catalogs) (w : WizardState) (applyCP : Bool) :
    (saveTemplate cat w applyCP).cost_per_tco2 =
      (if applyCP then (computedRep cat w).implied_cost_per_t_w
       else (computedRep cat w).implied_cost_per_t_wo) ∧
    (saveTemplate cat w applyCP).abatement_tco2 = max 0 (computedRep cat w).direct_t ∧
    (0 ≤ (computedRep cat w).direct_t →
      (saveTemplate cat w applyCP).abatement_tco2 = (computedRep cat w).direct_t) := by
  refine ⟨rfl, rfl, fun h => ?_⟩
  show max 0 (computedRep cat w).direct_t = _
  exact max_eq_right h

/-- Witness for C2: with a positive direct series the saved abatement
equals the representative-year `direct_t`. -/
theorem saveTemplate_policy_witness :
    (saveTemplate emptyCat wPos true).abatement_tco2 = (computedRep emptyCat wPos).direct_t :=
  (saveTemplate_policy emptyCat wPos true).2.2 (by
    rw [wPos_rep, wPos_direct 0 2025 (by omega)]
    norm_num)

/-! ## Lemmas about the quadratic fit -/

lemma zip_map_self (xs : List ℚ) (f : ℚ → ℚ) :
    xs.zip (xs.map f) = xs.map (fun x => (x, f x)) := by
  induction xs with
  | nil => rfl
  | cons x rest ih => simp [List.zip_cons_cons, ih]

lemma cramer1 (n P1 P2 P3 P4 : ℚ) :
    det3 (2 * n + 3 * P1 - P2) P1 P2 (2 * P1 + 3 * P2 - P3) P2 P3
      (2 * P2 + 3 * P3 - P4) P3 P4 = 2 * det3 n P1 P2 P1 P2 P3 P2 P3 P4 := by
  unfold det3; ring

lemma cramer2 (n P1 P2 P3 P4 : ℚ) :
    det3 n (2 * n + 3 * P1 - P2) P2 P1 (2 * P1 + 3 * P2 - P3) P3
      P2 (2 * P2 + 3 * P3 - P4) P4 = 3 * det3 n P1 P2 P1 P2 P3 P2 P3 P4 := by
  unfold det3; ring

lemma cramer3 (n P1 P2 P3 P4 : ℚ) :
    det3 n P1 (2 * n + 3 * P1 - P2) P1 P2 (2 * P1 + 3 * P2 - P3)
      P2 P3 (2 * P2 + 3 * P3 - P4) = -1 * det3 n P1 P2 P1 P2 P3 P2 P3 P4 := by
  unfold det3; ring

lemma poly_inj3 (x y : ℚ) (hxy : x ≠ y) (h : 2 + 3 * x - x ^ 2 = 2 + 3 * y - y ^ 2) :
    x + y = 3 := by
  have h1 : (x - y) * (3 - (x + y)) = 0 := by linear_combination h
  rcases mul_eq_zero.mp h1 with h2 | h2
  · exact absurd (sub_eq_zero.mp h2) hxy
  · have := sub_eq_zero.mp h2
    linarith

lemma sum_pos_of_mem_pos (l : List ℚ) (hnn : ∀ x ∈ l, 0 ≤ x) (x : ℚ) (hx : x ∈ l)
    (hpos : 0 < x) : 0 < l.sum := by
  induction l with
  | nil => simp at hx
  | cons a rest ih =>
    have htail : 0 ≤ rest.sum :=
      List.sum_nonneg (fun y hy => hnn y (List.mem_cons_of_mem a hy))
    rcases List.mem_cons.mp hx with rfl | hx2
    · rw [List.sum_cons]; linarith
    · have ha : 0 ≤ a := hnn a (List.mem_cons_self a rest)
      have := ih (fun y hy => hnn y (List.mem_cons_of_mem a hy)) hx2
      rw [List.sum_cons]; linarith

lemma sst_pos (x1 x2 x3 : ℚ) (rest : List ℚ) (h12 : x1 ≠ x2) (h13 : x1 ≠ x3)
    (h23 : x2 ≠ x3) (m : ℚ) :
    0 < ((x1 :: x2 :: x3 :: rest).map (fun x => ((2 + 3 * x - x ^ 2) - m) ^ 2)).sum := by
  have hnn : ∀ y ∈ (x1 :: x2 :: x3 :: rest).map (fun x => ((2 + 3 * x - x ^ 2) - m) ^ 2),
      0 ≤ y := by
    intro y hy
    rcases List.mem_map.mp hy with ⟨x, _, rfl⟩
    positivity
  by_cases hA : (2 + 3 * x1 - x1 ^ 2) = m
  · by_cases hB : (2 + 3 * x2 - x2 ^ 2) = m
    · have hs12 : x1 + x2 = 3 := poly_inj3 x1 x2 h12 (by rw [hA, hB])
      by_cases hC : (2 + 3 * x3 - x3 ^ 2) = m
      · have hs13 : x1 + x3 = 3 := poly_inj3 x1 x3 h13 (by rw [hA, hC])
        exact absurd (by linarith : x2 = x3) h23
      · exact sum_pos_of_mem_pos _ hnn (((2 + 3 * x3 - x3 ^ 2) - m) ^ 2)
          (List.mem_map_of_mem _ (by simp))
          (pow_two_pos_of_ne_zero (sub_ne_zero.mpr hC))
    · exact sum_pos_of_mem_pos _ hnn (((2 + 3 * x2 - x2 ^ 2) - m) ^ 2)
        (List.mem_map_of_mem _ (by simp))
        (pow_two_pos_of_ne_zero (sub_ne_zero.mpr hB))
  · exact sum_pos_of_mem_pos _ hnn (((2 + 3 * x1 - x1 ^ 2) - m) ^ 2)
      (List.mem_map_of_mem _ (by simp))
      (pow_two_pos_of_ne_zero (sub_ne_zero.mpr hA))

lemma sum_poly0 (xs : List ℚ) : (xs.map (fun x => 2 + 3 * x - x ^ 2)).sum =
    2 * (xs.length : ℚ) + 3 * (xs.map (fun x => x)).sum - (xs.map (fun x => x ^ 2)).sum := by
  induction xs with
  | nil => simp
  | cons x rest ih =>
    simp only [List.map_cons, List.sum_cons, List.length_cons] at ih ⊢
    rw [ih]; push_cast; ring

lemma sum_poly1 (xs : List ℚ) : (xs.map (fun x => x * (2 + 3 * x - x ^ 2))).sum =
    2 * (xs.map (fun x => x)).sum + 3 * (xs.map (fun x => x ^ 2)).sum -
      (xs.map (fun x => x ^ 3)).sum := by
  induction xs with
  | nil => simp
  | cons x rest ih =>
    simp only [List.map_cons, List.sum_cons] at ih ⊢
    rw [ih]; ring

lemma sum_poly2 (xs : List ℚ) : (xs.map (fun x => x ^ 2 * (2 + 3 * x - x ^ 2))).sum =
    2 * (xs.map (fun x => x ^ 2)).sum + 3 * (xs.map (fun x => x ^ 3)).sum -
      (xs.map (fun x => x ^ 4)).sum := by
  induction xs with
  | nil => simp
  | cons x rest ih =>
    simp only [List.map_cons, List.sum_cons] at ih ⊢
    rw [ih]; ring

lemma sum_eq_zero_of_all_zero (l : List ℚ) (f : ℚ → ℚ) (h : ∀ x ∈ l, f x = 0) :
    (l.map f).sum = 0 := by
  induction l with
  | nil => simp
  | cons a rest ih =>
    rw [List.map_cons, List.sum_cons, h a (List.mem_cons_self a rest),
        ih (fun x hx => h x (List.mem_cons_of_mem a hx))]
    simp

lemma quadDet_expand (xs : List ℚ) : quadDet xs =
    det3 (xs.length : ℚ) ((xs.map (fun x => x)).sum) ((xs.map (fun x => x ^ 2)).sum)
      ((xs.map (fun x => x)).sum) ((xs.map (fun x => x ^ 2)).sum) ((xs.map (fun x => x ^ 3)).sum)
      ((xs.map (fun x => x ^ 2)).sum) ((xs.map (fun x => x ^ 3)).sum)
      ((xs.map (fun x => x ^ 4)).sum) := by
  simp [quadDet, powSum, pow_one]

/-- Counterexample to C9 as stated: three distinct x values of order
one thousandth generate a normal-equations determinant of 4e-18, which
is below the code threshold of 1e-12 even in exact arithmetic, so the
fit returns the degenerate result instead of the generating
coefficients. -/
theorem quadraticFit_counterexample :
    ([0, 1/1000, 2/1000] : List ℚ).Pairwise (fun x y => x ≠ y) ∧
    (3 : Nat) ≤ ([0, 1/1000, 2/1000] : List ℚ).length ∧
    quadraticFit [0, 1/1000, 2/1000]
      (([0, 1/1000, 2/1000] : List ℚ).map (fun x => 2 + 3 * x - x ^ 2)) = ⟨0, 0, 0, none⟩ := by
  refine ⟨by norm_num, by norm_num, ?_⟩
  have habs : |(1:ℚ)/250000000000000000| = 1/250000000000000000 := abs_of_pos (by norm_num)
  norm_num [quadraticFit, det3, List.zip_cons_cons, habs]

/-- C9 (amended): for at least three pairwise-distinct x values whose
y values are generated exactly by `y = 2 + 3x - x^2` and whose
normal-equations determinant clears the code degeneracy threshold of
1e-12, the Cramer-rule fit returns exactly `a = 2, b = 3, c = -1` and
`r2 = 1`. -/
theorem quadraticFit_exact (xs : List ℚ) (h3 : 3 ≤ xs.length)
    (hdist : xs.Pairwise (fun x y => x ≠ y))
    (hD : 1 / 10 ^ 12 ≤ |quadDet xs|) :
    quadraticFit xs (xs.map (fun x => 2 + 3 * x - x ^ 2)) = ⟨2, 3, -1, some 1⟩ := by
  rcases xs with _ | ⟨x1, _ | ⟨x2, _ | ⟨x3, rest⟩⟩⟩
  · simp at h3
  · simp at h3
  · simp at h3
  obtain ⟨h1all, hdist2⟩ := List.pairwise_cons.mp hdist
  obtain ⟨h2all, hdist3⟩ := List.pairwise_cons.mp hdist2
  have h12 : x1 ≠ x2 := h1all x2 (by simp)
  have h13 : x1 ≠ x3 := h1all x3 (by simp)
  have h23 : x2 ≠ x3 := h2all x3 (by simp)
  have hn : ¬ ((x1 :: x2 :: x3 :: rest).length < 3) := by simp
  have hpts := zip_map_self (x1 :: x2 :: x3 :: rest) (fun x => 2 + 3 * x - x ^ 2)
  have hD0 : quadDet (x1 :: x2 :: x3 :: rest) ≠ 0 := by
    intro h0
    rw [h0] at hD
    norm_num at hD
  simp only [quadraticFit, if_neg hn, hpts, List.map_map, Function.comp_def]
  rw [sum_poly0, sum_poly1, sum_poly2]
  rw [cramer1, cramer2, cramer3]
  rw [← quadDet_expand]
  rw [if_neg (not_lt.mpr hD)]
  have ha2 : 2 * quadDet (x1 :: x2 :: x3 :: rest) / quadDet (x1 :: x2 :: x3 :: rest) = 2 := by
    field_simp
  have hb3 : 3 * quadDet (x1 :: x2 :: x3 :: rest) / quadDet (x1 :: x2 :: x3 :: rest) = 3 := by
    field_simp
  have hcm : -1 * quadDet (x1 :: x2 :: x3 :: rest) / quadDet (x1 :: x2 :: x3 :: rest) = -1 := by
    field_simp
  rw [ha2, hb3, hcm]
  have hsse : ((x1 :: x2 :: x3 :: rest).map
      (fun x => (2 + 3 * x - x ^ 2 - (2 + 3 * x + -1 * x ^ 2)) ^ 2)).sum = 0 :=
    sum_eq_zero_of_all_zero _ _ (fun x _ => by ring)
  have hsst := sst_pos x1 x2 x3 rest h12 h13 h23
    ((2 * ((x1 :: x2 :: x3 :: rest).length : ℚ) +
        3 * ((x1 :: x2 :: x3 :: rest).map (fun x => x)).sum -
        ((x1 :: x2 :: x3 :: rest).map (fun x => x ^ 2)).sum) /
      ((x1 :: x2 :: x3 :: rest).length : ℚ))
  rw [if_pos hsst]
  rw [hsse]
  norm_num

/-- Witness for C9: the fit on x values 0, 1, 2 recovers the generating
coefficients exactly. -/
theorem quadraticFit_exact_witness :
    quadraticFit [0, 1, 2] (([0, 1, 2] : List ℚ).map (fun x => 2 + 3 * x - x ^ 2)) =
      ⟨2, 3, -1, some 1⟩ :=
  quadraticFit_exact [0, 1, 2] (by norm_num) (by norm_num)
    (by norm_num [quadDet, powSum, det3])

end MACC
